import Mathlib

/-!
Verification of the async stack-trace reconstruction subsystem declared in
`runtime/vm/stack_trace.h` (classes `CallerClosureFinder` and
`StackTraceUtils`).  The repository ships only the header (declarations and
doc comments); the bodies live outside `src/`, so the operations below are
modelled from the specification and from the header's own doc comments
(notably the pseudocode for `CollectFramesLazy`), and the theorems are proved
against this model.
-/

namespace StackTraceVM

/-- Modelled from the spec: function metadata (spec section 3,
"Function/Code/Yield-Table").  The body of the runtime `Function` class is not
under `src/`.  A function owns compiled code (tracked by `codeId`), a table
mapping yield index to resumption pc offset, an async / async-generator kind,
a possible parent function (spec section 4.2 `CountFrames`), and a marker for
the synthetic `_async_then` wrapper peeled by `UnwrapAsyncThen`. -/
structure Func where
  id : Nat
  isAsync : Bool
  isAsyncGen : Bool
  isAsyncThenWrapper : Bool
  yieldTable : List (Nat × Nat)
  codeId : Nat
  parent : Option Nat
deriving DecidableEq

/-- Modelled from the spec: the heap-resident continuation-graph objects
(spec section 3) as one tagged variant, following the spec's design note
"model each heap entity as a tagged, immutable-view variant".  The bodies of
the heap classes are not under `src/`.
`closure fn ctx`: function reference plus captured context.
`context slots parent`: indexed captured variables with an enclosing link.
`future complete resultOrListeners`: the `_Future` with its
`_resultOrListeners` slot.
`listener callback stateFlags result`: a `_FutureListener`.
`completer fut`: a completer holding its `_future` (header pseudocode line
130 reads `closure.context[kAsyncCompleterVarIndex]._future`).
`controller onData fut`: the stream-controller family, carrying an `onData`
callback and the generator's completer future (spec section 4.1).
`other tag`: an object of unexpected shape. -/
inductive Obj : Type where
  | null : Obj
  | intVal : Nat → Obj
  | closure : Func → Obj → Obj
  | context : List Obj → Obj → Obj
  | future : Bool → Obj → Obj
  | listener : Obj → Nat → Obj → Obj
  | completer : Obj → Obj
  | controller : Obj → Obj → Obj
  | other : Nat → Obj

/-- Modelled from the spec: reserved context slot holding the yield index
(`Context::kAsyncJumpVarIndex` in the header pseudocode). -/
def kAsyncJumpVarIndex : Nat := 0

/-- Modelled from the spec: reserved context slot holding the completer
(`Context::kAsyncCompleterVarIndex` in the header pseudocode). -/
def kAsyncCompleterVarIndex : Nat := 1

/-- Modelled from the spec: context slot holding the stream controller of an
async-generator receiver context (spec section 4.1). -/
def kControllerIndex : Nat := 2

/-- Modelled from the spec: context slot of a synthetic `_async_then` wrapper
closure holding the closure it truly represents (spec section 4.1,
`UnwrapAsyncThen`). -/
def kAsyncThenCallbackIndex : Nat := 0

/-- Modelled from the spec: bit of `_FutureListener.state` recording that the
listener was registered to catch errors (spec section 4.1 `HasCatchError`,
"reads the listener's state flags"). -/
def kStateCatchErrorBit : Nat := 1

/-- Reading an indexed captured variable of a context.  Any object that is
not a context, and any out-of-range index, yields "not found" (spec
section 6: heap accessors return the field value or signal "field not
present / wrong shape"). -/
def ctxSlot : Obj → Nat → Option Obj
  | .context slots _, i => slots.get? i
  | _, _ => none

/-- Yield-table lookup: given a yield index, the resumption pc offset, or
"not found" (spec section 6). -/
def lookupYield : List (Nat × Nat) → Nat → Option Nat
  | [], _ => none
  | (y, pc) :: rest, i => if y = i then some pc else lookupYield rest i

/-- Modelled from the spec: evidence in a closure's context that its function
has actually suspended at least once — the yield-index slot holds a positive
yield index, as opposed to the synchronous fast path which never stores one
(spec section 3 invariants and section 4.1 `IsRunningAsync`). -/
def suspendedInContext (ctx : Obj) : Bool :=
  match ctxSlot ctx kAsyncJumpVarIndex with
  | some (.intVal y) => decide (0 < y)
  | _ => false

/-- Modelled from the spec: `CallerClosureFinder::IsRunningAsync` — true only
if the closure's owning function is an async or async-generator body and its
context shows it has actually suspended at least once. -/
def IsRunningAsync : Obj → Bool
  | .closure fn ctx => (fn.isAsync || fn.isAsyncGen) && suspendedInContext ctx
  | _ => false

/-- Modelled from the spec: `CallerClosureFinder::GetFutureFutureListener` —
read `_Future._resultOrListeners`; wrong shape yields none. -/
def GetFutureFutureListener : Obj → Option Obj
  | .future _ rol => some rol
  | _ => none

/-- Modelled from the spec: `CallerClosureFinder::GetFutureListenerResult` —
read `_FutureListener.result`; wrong shape yields none. -/
def GetFutureListenerResult : Obj → Option Obj
  | .listener _ _ result => some result
  | _ => none

/-- Modelled from the spec: `CallerClosureFinder::GetFutureListenerState` —
read `_FutureListener.state`; wrong shape yields none. -/
def GetFutureListenerState : Obj → Option Nat
  | .listener _ st _ => some st
  | _ => none

/-- Modelled from the spec: `CallerClosureFinder::GetFutureListenerCallback`
— read `_FutureListener.callback` when it is a closure; otherwise none. -/
def GetFutureListenerCallback : Obj → Option Obj
  | .listener (.closure fn ctx) _ _ => some (.closure fn ctx)
  | _ => none

/-- Modelled from the spec: `CallerClosureFinder::HasCatchError` — reads the
listener's state flags to report whether it was registered to catch errors;
an unexpected shape reports no error handler. -/
def HasCatchError (l : Obj) : Bool :=
  match GetFutureListenerState l with
  | some st => st.testBit kStateCatchErrorBit
  | none => false

/-- Modelled from the spec: `CallerClosureFinder::UnwrapAsyncThen` — peel a
synthetic combinator wrapper closure to recover the closure it truly
represents; a non-wrapper closure stands for itself; a non-closure yields
none. -/
def UnwrapAsyncThen : Obj → Option Obj
  | .closure fn ctx =>
    if fn.isAsyncThenWrapper then
      match ctxSlot ctx kAsyncThenCallbackIndex with
      | some (.closure fn2 ctx2) => some (.closure fn2 ctx2)
      | _ => none
    else some (.closure fn ctx)
  | _ => none

/-- Modelled from the spec: `CallerClosureFinder::GetAsyncFuture` — read the
completer slot of the receiver closure's context and return its `_future`;
any unexpected shape yields none. -/
def GetAsyncFuture : Obj → Option Obj
  | .closure _ ctx =>
    match ctxSlot ctx kAsyncCompleterVarIndex with
    | some (.completer fut) => some fut
    | _ => none
  | _ => none

mutual

/-- Modelled from the spec: `CallerClosureFinder::GetCallerInFutureImpl` —
read the future's result-or-listeners slot; if it holds another future
(the chained-await case) recurse on it, if it holds a listener delegate to
`GetCallerInFutureListener`, otherwise (empty or unexpected shape) none. -/
def GetCallerInFutureImpl : Obj → Option Obj
  | .future _ rol =>
    match rol with
    | .future st2 rol2 => GetCallerInFutureImpl (.future st2 rol2)
    | .listener cb st res => GetCallerInFutureListener (.listener cb st res)
    | _ => none
  | _ => none

/-- Modelled from the spec: `CallerClosureFinder::GetCallerInFutureListener`
— follow the listener's `result` slot while it points to another future,
flattening any chain of internally generated continuations; once no further
result future is present, return the `callback` closure unwrapped via
`UnwrapAsyncThen`; a listener with neither yields none. -/
def GetCallerInFutureListener : Obj → Option Obj
  | .listener cb _ res =>
    match res with
    | .future st rol => GetCallerInFutureImpl (.future st rol)
    | _ =>
      match cb with
      | .closure fn ctx => UnwrapAsyncThen (.closure fn ctx)
      | _ => none
  | _ => none

end

/-- Modelled from the spec: `CallerClosureFinder::FindCallerInAsyncGenClosure`
— inspect the async-generator receiver context for an attached `onData`
callback (the consumer of yielded values) or, absent that, the generator's
own completer-future awaiter. -/
def FindCallerInAsyncGenClosure (receiverContext : Obj) : Option Obj :=
  match ctxSlot receiverContext kControllerIndex with
  | some (.controller onData fut) =>
    match onData with
    | .closure fn ctx => UnwrapAsyncThen (.closure fn ctx)
    | _ => GetCallerInFutureImpl fut
  | _ => none

/-- Modelled from the spec: `CallerClosureFinder::FindCaller` — dispatch on
the shape of the receiver closure: a suspended async-generator goes through
its receiver context; a suspended async function resolves its future via
`GetAsyncFuture` and delegates to `GetCallerInFutureImpl`; a synthetic
wrapper is peeled by `UnwrapAsyncThen`; everything else is terminal. -/
def FindCaller : Obj → Option Obj
  | .closure fn ctx =>
    if fn.isAsyncGen && suspendedInContext ctx then
      FindCallerInAsyncGenClosure ctx
    else if fn.isAsync && suspendedInContext ctx then
      match GetAsyncFuture (.closure fn ctx) with
      | some fut => GetCallerInFutureImpl fut
      | none => none
    else if fn.isAsyncThenWrapper then
      UnwrapAsyncThen (.closure fn ctx)
    else none
  | _ => none

/-- Modelled from the spec: resolve a continuation closure's (code, pc
offset) entry — read the yield index from the closure's context and resolve
it through the owning function's yield table (header pseudocode lines
126-129); any failure terminates the chain as "not found". -/
def resolvePcEntry : Obj → Option (Nat × Nat)
  | .closure fn ctx =>
    match ctxSlot ctx kAsyncJumpVarIndex with
    | some (.intVal y) =>
      match lookupYield fn.yieldTable y with
      | some pc => some (fn.codeId, pc)
      | none => none
    | _ => none
  | _ => none

/-- Modelled from the spec: the pair of caller-owned output arrays
(`code_array` and `pc_offset_array` in the header) together with their shared
capacity, as a capacity-bounded sequence of (code, pc offset) entries (spec
section 9, "bounded writer").  The two parallel arrays are modelled zipped
into one entry list. -/
structure TraceOutput where
  capacity : Nat
  entries : List (Nat × Nat)
deriving DecidableEq

/-- The output buffer can take no further entry. -/
def TraceOutput.isFull (o : TraceOutput) : Bool :=
  decide (o.capacity ≤ o.entries.length)

/-- Append one (code, pc offset) entry; when capacity is exhausted the append
stops silently (spec section 4.3 step 2 and section 7). -/
def TraceOutput.append (o : TraceOutput) (e : Nat × Nat) : TraceOutput :=
  if o.isFull then o else { o with entries := o.entries ++ [e] }

theorem TraceOutput.append_capacity (o : TraceOutput) (e : Nat × Nat) :
    (o.append e).capacity = o.capacity := by
  unfold TraceOutput.append
  split <;> rfl

theorem TraceOutput.append_entries_of_not_full (o : TraceOutput) (e : Nat × Nat)
    (h : ¬ o.isFull = true) : (o.append e).entries = o.entries ++ [e] := by
  unfold TraceOutput.append
  simp [h]

theorem TraceOutput.append_of_full (o : TraceOutput) (e : Nat × Nat)
    (h : o.isFull = true) : o.append e = o := by
  unfold TraceOutput.append
  simp [h]

/-- Modelled from the spec: `StackTraceUtils::UnwindAwaiterChain` — starting
from the leaf continuation closure, repeatedly resolve the current closure's
yield index to a resumption pc, append the (code, pc offset) entry to the
output arrays, and ask `FindCaller` for the next closure upstream; stop when
no caller is found, the entry cannot be resolved, or output capacity is
exhausted (header pseudocode lines 125-132, spec section 4.3 step 2). -/
def UnwindAwaiterChain (leafClosure : Obj) (out : TraceOutput) : TraceOutput :=
  if h : out.isFull then out
  else
    match resolvePcEntry leafClosure with
    | none => out
    | some e =>
      match FindCaller leafClosure with
      | none => out.append e
      | some next => UnwindAwaiterChain next (out.append e)
termination_by out.capacity - out.entries.length
decreasing_by
  simp only [TraceOutput.append, TraceOutput.isFull] at h ⊢
  simp only [decide_eq_true_eq] at h
  simp [h, TraceOutput.isFull]
  omega

/-- Modelled from the spec: one physical execution-stack frame as exposed by
the frame iterator (spec section 6): its code object and program counter, a
marker for synthetic trampoline frames that are skipped in the final trace
(spec section 4.2, `skip_frame`), the parent of the function executing in the
frame (spec section 4.2 `CountFrames`), and the continuation closure captured
in the frame's context, if any (spec section 4.2, `FindClosureInFrame`). -/
structure Frame where
  codeId : Nat
  pc : Nat
  isTrampoline : Bool
  fnParent : Option Nat
  closure : Option Obj

/-- The (code, pc) entry a physical frame contributes to the trace. -/
def frameEntry (f : Frame) : Nat × Nat := (f.codeId, f.pc)

/-- A frame is an async leaf hit when its captured continuation closure is a
suspended async / async-generator closure (header doc comment lines 120-122:
"until an async/async* frame is hit which has yielded before"). -/
def frameIsHit (f : Frame) : Bool :=
  match f.closure with
  | some c => IsRunningAsync c
  | none => false

/-- Modelled from the spec: the collection loop of
`StackTraceUtils::CollectFrames` after the skipped frames — walk the frame
iterator top-down, copying up to `count` (code, pc) entries; the walk ends at
the end of the stack even when fewer than `count` frames exist. -/
def collectFramesList : List Frame → Nat → List (Nat × Nat)
  | _, 0 => []
  | [], _ + 1 => []
  | f :: rest, n + 1 => frameEntry f :: collectFramesList rest n

/-- Modelled from the spec: `StackTraceUtils::CollectFrames` — skip the first
`skipFrames` frames, then collect up to `count` (code, pc) entries; the
returned sequence is what is written into the caller-owned arrays, and its
length is the returned frame count. -/
def CollectFrames (stack : List Frame) (count : Nat) (skipFrames : Nat) :
    List (Nat × Nat) :=
  collectFramesList (stack.drop skipFrames) count

/-- Modelled from the spec: the counting loop of
`StackTraceUtils::CountFrames` after the skipped frames.  With a target
function it stops at the first frame whose function has the target as its
parent and records in the flag whether that call completed synchronously
(never suspended); with no target it counts every remaining frame and leaves
the flag unset (header doc comment lines 144-148). -/
def countFramesLoop : List Frame → Option Func → Nat × Option Bool
  | [], _ => (0, none)
  | f :: rest, none =>
    let r := countFramesLoop rest none
    (r.1 + 1, r.2)
  | f :: rest, some af =>
    if f.fnParent = some af.id then
      (1, some (match f.closure with
                | some c => !(IsRunningAsync c)
                | none => true))
    else
      let r := countFramesLoop rest (some af)
      (r.1 + 1, r.2)

/-- Modelled from the spec: `StackTraceUtils::CountFrames` — skip the first
`skipFrames` frames and count the rest, stopping early only when a target
async function is supplied. -/
def CountFrames (stack : List Frame) (skipFrames : Nat)
    (asyncFunction : Option Func) : Nat × Option Bool :=
  countFramesLoop (stack.drop skipFrames) asyncFunction

/-- Modelled from the spec: the frame loop of
`StackTraceUtils::CollectFramesLazy` — walk the physical frames top-down;
skip trampoline frames; append each ordinary synchronous frame's (code, pc)
entry; on the first async leaf hit, hand its continuation closure to
`UnwindAwaiterChain` and report that a heap-graph step occurred (spec
section 4.3). -/
def collectFramesLazyLoop : List Frame → TraceOutput → TraceOutput × Bool
  | [], out => (out, false)
  | f :: rest, out =>
    if f.isTrampoline then collectFramesLazyLoop rest out
    else
      match f.closure with
      | some c =>
        if IsRunningAsync c then (UnwindAwaiterChain c out, true)
        else collectFramesLazyLoop rest (out.append (frameEntry f))
      | none => collectFramesLazyLoop rest (out.append (frameEntry f))

/-- Modelled from the spec: `StackTraceUtils::CollectFramesLazy` — skip the
first `skipFrames` frames, then run the lazy collection loop; the Bool is the
`has_async` output flag. -/
def CollectFramesLazy (stack : List Frame) (skipFrames : Nat)
    (out : TraceOutput) : TraceOutput × Bool :=
  collectFramesLazyLoop (stack.drop skipFrames) out

/-- The entries `UnwindAwaiterChain` emits from a starting closure within a
given budget of appends: the current closure's resolved (code, pc offset)
entry followed by the entries of its `FindCaller` chain. -/
def chainEntries (c : Obj) : Nat → List (Nat × Nat)
  | 0 => []
  | fuel + 1 =>
    match resolvePcEntry c with
    | none => []
    | some e =>
      match FindCaller c with
      | none => [e]
      | some next => e :: chainEntries next fuel

/-- The (code, pc) entries of the ordinary synchronous frames preceding the
first async leaf hit (trampoline frames skipped). -/
def syncEntries : List Frame → List (Nat × Nat)
  | [] => []
  | f :: rest =>
    if f.isTrampoline then syncEntries rest
    else
      match f.closure with
      | some c =>
        if IsRunningAsync c then [] else frameEntry f :: syncEntries rest
      | none => frameEntry f :: syncEntries rest

/-- The continuation closure of the first async leaf hit of the stack walk,
if any. -/
def firstHit : List Frame → Option Obj
  | [] => none
  | f :: rest =>
    if f.isTrampoline then firstHit rest
    else
      match f.closure with
      | some c => if IsRunningAsync c then some c else firstHit rest
      | none => firstHit rest

/-- A listener whose `result` slot points to a chain of `n` internally
generated continuation futures before reaching a listener holding the real
callback `cb` (spec section 4.1, `GetCallerInFutureListener`). -/
def mkListenerChain : Nat → Obj → Obj
  | 0, cb => .listener cb 0 .null
  | n + 1, cb => .listener (.other 0) 0 (.future true (mkListenerChain n cb))

theorem chainEntries_length_le (fuel : Nat) :
    ∀ c : Obj, (chainEntries c fuel).length ≤ fuel := by
  induction fuel with
  | zero => intro c; simp [chainEntries]
  | succ n ih =>
    intro c
    unfold chainEntries
    cases hres : resolvePcEntry c with
    | none => simp
    | some e =>
      cases hfc : FindCaller c with
      | none => simp
      | some next =>
        simpa using Nat.succ_le_succ (ih next)

theorem unwind_entries_eq (fuel : Nat) :
    ∀ (c : Obj) (out : TraceOutput),
      out.capacity - out.entries.length = fuel →
      (UnwindAwaiterChain c out).entries
        = out.entries ++ chainEntries c fuel := by
  induction fuel with
  | zero =>
    intro c out hfuel
    have hfull : out.isFull = true := by
      simp only [TraceOutput.isFull, decide_eq_true_eq]
      omega
    unfold UnwindAwaiterChain
    simp [hfull, chainEntries]
  | succ n ih =>
    intro c out hfuel
    have hnotfull : ¬ out.isFull = true := by
      simp only [TraceOutput.isFull, decide_eq_true_eq]
      omega
    unfold UnwindAwaiterChain
    rw [dif_neg hnotfull]
    cases hres : resolvePcEntry c with
    | none => simp [chainEntries, hres]
    | some e =>
      have happ := TraceOutput.append_entries_of_not_full out e hnotfull
      have hcap := TraceOutput.append_capacity out e
      cases hfc : FindCaller c with
      | none => simp [chainEntries, hres, hfc, happ]
      | some next =>
        have hlen : (out.append e).capacity - (out.append e).entries.length = n := by
          rw [hcap, happ]
          simp only [List.length_append, List.length_singleton]
          simp only [TraceOutput.isFull, decide_eq_true_eq] at hnotfull
          omega
        simp only [chainEntries, hres, hfc]
        rw [ih next (out.append e) hlen, happ]
        simp

theorem unwind_capacity (fuel : Nat) :
    ∀ (c : Obj) (out : TraceOutput),
      out.capacity - out.entries.length = fuel →
      (UnwindAwaiterChain c out).capacity = out.capacity := by
  induction fuel with
  | zero =>
    intro c out hfuel
    have hfull : out.isFull = true := by
      simp only [TraceOutput.isFull, decide_eq_true_eq]
      omega
    unfold UnwindAwaiterChain
    simp [hfull]
  | succ n ih =>
    intro c out hfuel
    have hnotfull : ¬ out.isFull = true := by
      simp only [TraceOutput.isFull, decide_eq_true_eq]
      omega
    unfold UnwindAwaiterChain
    rw [dif_neg hnotfull]
    cases hres : resolvePcEntry c with
    | none => rfl
    | some e =>
      have happ := TraceOutput.append_entries_of_not_full out e hnotfull
      have hcap := TraceOutput.append_capacity out e
      cases hfc : FindCaller c with
      | none => simp [hcap]
      | some next =>
        have hlen : (out.append e).capacity - (out.append e).entries.length = n := by
          rw [hcap, happ]
          simp only [List.length_append, List.length_singleton]
          simp only [TraceOutput.isFull, decide_eq_true_eq] at hnotfull
          omega
        simp only []
        rw [ih next (out.append e) hlen, hcap]

/-! Concrete fixtures: a three-closure awaiter chain usable on small concrete
inputs.  `closureCW` is a suspended async closure with no completer (top of
chain); `closureBW` awaits it; `closureAW` awaits `closureBW`. -/

def funcCW : Func := ⟨3, true, false, false, [(1, 30)], 102, none⟩

def funcBW : Func := ⟨2, true, false, false, [(1, 20)], 101, none⟩

def funcAW : Func := ⟨1, true, false, false, [(1, 10)], 100, none⟩

def closureCW : Obj := .closure funcCW (.context [.intVal 1] .null)

def closureBW : Obj :=
  .closure funcBW
    (.context [.intVal 1, .completer (.future true (.listener closureCW 0 .null))] .null)

def closureAW : Obj :=
  .closure funcAW
    (.context [.intVal 1, .completer (.future true (.listener closureBW 0 .null))] .null)

/-- Claim C1: for every closure chain A→B→C in which `FindCaller` maps A to
B, B to C, and C to none, `UnwindAwaiterChain` started at the leaf closure A
appends exactly three (code, pc-offset) entries to the output arrays, in the
order A, B, C, and then stops. -/
theorem unwindAwaiterChain_three_chain
    (A B C : Obj) (out : TraceOutput) (eA eB eC : Nat × Nat)
    (hA : resolvePcEntry A = some eA) (hB : resolvePcEntry B = some eB)
    (hC : resolvePcEntry C = some eC)
    (hAB : FindCaller A = some B) (hBC : FindCaller B = some C)
    (hCtop : FindCaller C = none)
    (hcap : out.entries.length + 3 ≤ out.capacity) :
    (UnwindAwaiterChain A out).entries = out.entries ++ [eA, eB, eC] := by
  obtain ⟨k, hk⟩ : ∃ k, out.capacity - out.entries.length = k + 3 :=
    ⟨out.capacity - out.entries.length - 3, by omega⟩
  rw [unwind_entries_eq (k + 3) A out hk]
  simp [chainEntries, hA, hB, hC, hAB, hBC, hCtop]

/-- Witness for claim C1 on the concrete chain
`closureAW` → `closureBW` → `closureCW` → none. -/
theorem unwindAwaiterChain_three_chain_witness :
    (UnwindAwaiterChain closureAW ⟨10, []⟩).entries
      = [] ++ [(100, 10), (101, 20), (102, 30)] :=
  unwindAwaiterChain_three_chain closureAW closureBW closureCW ⟨10, []⟩
    (100, 10) (101, 20) (102, 30) rfl rfl rfl rfl rfl rfl (by decide)

theorem mkListenerChain_shape (n : Nat) (cb : Obj) :
    ∃ a b r, mkListenerChain n cb = .listener a b r := by
  cases n <;> exact ⟨_, _, _, rfl⟩

/-- Claim C3: for every listener whose result slot points to a chain of N
(N ≥ 0) internally-generated continuation futures before reaching a listener
with a real callback, `GetCallerInFutureListener` follows all N hops and
returns that callback closure (unwrapped if it is a synthetic thunk), never
an intermediate future wrapper; if neither a result future nor a usable
callback is present it returns none. -/
theorem getCallerInFutureListener_flattens (n : Nat) (fn : Func) (ctx : Obj) :
    GetCallerInFutureListener (mkListenerChain n (.closure fn ctx))
      = UnwrapAsyncThen (.closure fn ctx)
    ∧ ∀ flags : Nat,
        GetCallerInFutureListener (.listener .null flags .null) = none := by
  constructor
  · induction n with
    | zero => rfl
    | succ m ih =>
      obtain ⟨a, b, r, hshape⟩ := mkListenerChain_shape m (.closure fn ctx)
      show GetCallerInFutureImpl
          (.future true (mkListenerChain m (.closure fn ctx))) = _
      rw [hshape]
      show GetCallerInFutureListener (.listener a b r) = _
      rw [← hshape]
      exact ih
  · intro flags
    rfl

/-- Claim C4: for every closure whose function is an async or async-generator
function that ran to completion without ever suspending (the synchronous fast
path), `IsRunningAsync` returns false, and such a closure is never treated as
a heap-graph hit by `CollectFramesLazy` (the continuation-graph walk is not
entered for it: its frame is handled exactly like an ordinary synchronous
frame). -/
theorem syncFastPath_never_hit
    (fn : Func) (ctx : Obj)
    (hkind : fn.isAsync = true ∨ fn.isAsyncGen = true)
    (hjump : ctxSlot ctx kAsyncJumpVarIndex = some (.intVal 0)) :
    IsRunningAsync (.closure fn ctx) = false ∧
    ∀ (f : Frame) (rest : List Frame) (out : TraceOutput),
      f.isTrampoline = false → f.closure = some (.closure fn ctx) →
      frameIsHit f = false ∧
      collectFramesLazyLoop (f :: rest) out
        = collectFramesLazyLoop rest (out.append (frameEntry f)) := by
  have hrun : IsRunningAsync (.closure fn ctx) = false := by
    simp [IsRunningAsync, suspendedInContext, hjump]
  refine ⟨hrun, ?_⟩
  intro f rest out htramp hclos
  have hhit : frameIsHit f = false := by
    simp [frameIsHit, hclos, hrun]
  refine ⟨hhit, ?_⟩
  simp [collectFramesLazyLoop, htramp, hclos, hrun]

/-! Concrete fixture: a frame executing an async function that completed
synchronously (yield-index slot still 0). -/

def funcSyncW : Func := ⟨4, true, false, false, [(1, 77)], 103, none⟩

def ctxSyncW : Obj := .context [.intVal 0] .null

def frameSyncW : Frame := ⟨103, 7, false, none, some (.closure funcSyncW ctxSyncW)⟩

/-- Witness for claim C4 on the concrete synchronous fast-path closure. -/
theorem syncFastPath_never_hit_witness :
    IsRunningAsync (.closure funcSyncW ctxSyncW) = false ∧
    (frameIsHit frameSyncW = false ∧
     collectFramesLazyLoop [frameSyncW] ⟨5, []⟩
       = collectFramesLazyLoop []
           (TraceOutput.append ⟨5, []⟩ (frameEntry frameSyncW))) :=
  ⟨(syncFastPath_never_hit funcSyncW ctxSyncW (Or.inl rfl) rfl).1,
   (syncFastPath_never_hit funcSyncW ctxSyncW (Or.inl rfl) rfl).2
     frameSyncW [] ⟨5, []⟩ rfl rfl⟩

theorem collectFramesList_eq_take (l : List Frame) :
    ∀ n : Nat, collectFramesList l n = (l.take n).map frameEntry := by
  induction l with
  | nil => intro n; cases n <;> rfl
  | cons f rest ih =>
    intro n
    cases n with
    | zero => rfl
    | succ m => simp [collectFramesList, ih m]

/-- Claim C7: for every stack and every requested count, `CollectFrames`
returns a value equal to min(count, number of frames remaining after
skip_frames), never more than the frames that actually exist, and never
accesses a frame past the end of the stack: every collected entry comes from
an existing frame of the walked suffix. -/
theorem collectFrames_bounded (stack : List Frame) (count skipFrames : Nat) :
    CollectFrames stack count skipFrames
      = ((stack.drop skipFrames).take count).map frameEntry ∧
    (CollectFrames stack count skipFrames).length
      = min count (stack.length - skipFrames) := by
  have h := collectFramesList_eq_take (stack.drop skipFrames) count
  refine ⟨h, ?_⟩
  rw [CollectFrames, h]
  simp

theorem countFramesLoop_none (l : List Frame) :
    countFramesLoop l none = (l.length, none) := by
  induction l with
  | nil => rfl
  | cons f rest ih => simp [countFramesLoop, ih]

/-- Claim C10: when `CountFrames` is called with a null async_function (no
target function), it does not stop early at any frame: it returns the total
number of frames on the stack after skipping the first skip_frames, and the
sync_async_end output is not set. -/
theorem countFrames_no_target (stack : List Frame) (skipFrames : Nat) :
    CountFrames stack skipFrames none
      = ((stack.drop skipFrames).length, none) := by
  rw [CountFrames, countFramesLoop_none]

/-- Claim C8: when the output buffer's capacity is exhausted during the
awaiter-chain walk, `UnwindAwaiterChain` stops appending silently and the
call still succeeds: on a full buffer the output is returned unchanged, and
for every walk the entries written so far are preserved as a prefix and the
entry count never exceeds the buffer's capacity (or the initial length, if
the buffer was handed over overfull); exhaustion is never reported as an
error condition. -/
theorem unwindAwaiterChain_exhaustion_silent
    (c : Obj) (out : TraceOutput) (h : out.isFull = true) :
    UnwindAwaiterChain c out = out ∧
    ∀ (c2 : Obj) (o : TraceOutput),
      (∃ tail, (UnwindAwaiterChain c2 o).entries = o.entries ++ tail) ∧
      (UnwindAwaiterChain c2 o).entries.length
        ≤ max o.capacity o.entries.length := by
  constructor
  · unfold UnwindAwaiterChain
    simp [h]
  · intro c2 o
    have he := unwind_entries_eq (o.capacity - o.entries.length) c2 o rfl
    refine ⟨⟨_, he⟩, ?_⟩
    rw [he]
    have hle := chainEntries_length_le (o.capacity - o.entries.length) c2
    simp only [List.length_append]
    omega

/-- Witness for claim C8: a full buffer is returned unchanged, and on a
one-slot buffer the walk from `closureBW` preserves the (empty) prior entries
and writes at most one entry. -/
theorem unwindAwaiterChain_exhaustion_silent_witness :
    UnwindAwaiterChain closureAW ⟨0, []⟩ = ⟨0, []⟩ ∧
    (∃ tail, (UnwindAwaiterChain closureBW ⟨1, []⟩).entries
        = ([] : List (Nat × Nat)) ++ tail) ∧
    (UnwindAwaiterChain closureBW ⟨1, []⟩).entries.length
      ≤ max 1 (List.length ([] : List (Nat × Nat))) :=
  ⟨(unwindAwaiterChain_exhaustion_silent closureAW ⟨0, []⟩ rfl).1,
   (unwindAwaiterChain_exhaustion_silent closureAW ⟨0, []⟩ rfl).2
     closureBW ⟨1, []⟩⟩

/-- Claim C6: for every input in which a traversal step encounters an object
of unexpected shape where a Future or Listener was expected, every accessor
of `CallerClosureFinder` returns "not found" (a none result, or false for the
Bool-valued `HasCatchError`) rather than signalling a fault, and the
orchestrator still returns all entries collected before the malformed node
was reached: a suspended async closure whose completer slot is malformed
still contributes its own entry, after which the walk terminates cleanly. -/
theorem malformed_shape_degrades
    (t : Nat) (fn : Func) (ctx : Obj) (out : TraceOutput) (e : Nat × Nat)
    (hgen : fn.isAsyncGen = false)
    (hasync : fn.isAsync = true)
    (hsusp : suspendedInContext ctx = true)
    (hres : resolvePcEntry (.closure fn ctx) = some e)
    (hmal : ctxSlot ctx kAsyncCompleterVarIndex = some (.other t))
    (hfull : ¬ out.isFull = true) :
    (GetCallerInFutureImpl (.other t) = none ∧
     GetCallerInFutureListener (.other t) = none ∧
     GetFutureFutureListener (.other t) = none ∧
     GetFutureListenerResult (.other t) = none ∧
     GetFutureListenerCallback (.other t) = none ∧
     GetFutureListenerState (.other t) = none ∧
     HasCatchError (.other t) = false ∧
     GetAsyncFuture (.other t) = none ∧
     FindCallerInAsyncGenClosure (.other t) = none ∧
     FindCaller (.other t) = none) ∧
    FindCaller (.closure fn ctx) = none ∧
    (UnwindAwaiterChain (.closure fn ctx) out).entries
      = out.entries ++ [e] := by
  have hfc : FindCaller (.closure fn ctx) = none := by
    simp [FindCaller, hgen, hasync, hsusp, GetAsyncFuture, hmal]
  refine ⟨⟨rfl, rfl, rfl, rfl, rfl, rfl, rfl, rfl, rfl, rfl⟩, hfc, ?_⟩
  unfold UnwindAwaiterChain
  rw [dif_neg hfull, hres, hfc]
  exact TraceOutput.append_entries_of_not_full out e hfull

/-! Concrete fixture: a suspended async closure whose completer slot holds a
malformed object. -/

def funcMalW : Func := ⟨5, true, false, false, [(1, 40)], 104, none⟩

def ctxMalW : Obj := .context [.intVal 1, .other 9] .null

/-- Witness for claim C6 on the concrete malformed fixture. -/
theorem malformed_shape_degrades_witness :
    (GetCallerInFutureImpl (.other 9) = none ∧
     GetCallerInFutureListener (.other 9) = none ∧
     GetFutureFutureListener (.other 9) = none ∧
     GetFutureListenerResult (.other 9) = none ∧
     GetFutureListenerCallback (.other 9) = none ∧
     GetFutureListenerState (.other 9) = none ∧
     HasCatchError (.other 9) = false ∧
     GetAsyncFuture (.other 9) = none ∧
     FindCallerInAsyncGenClosure (.other 9) = none ∧
     FindCaller (.other 9) = none) ∧
    FindCaller (.closure funcMalW ctxMalW) = none ∧
    (UnwindAwaiterChain (.closure funcMalW ctxMalW) ⟨5, []⟩).entries
      = [] ++ [(104, 40)] :=
  malformed_shape_degrades 9 funcMalW ctxMalW ⟨5, []⟩ (104, 40)
    rfl rfl rfl rfl rfl (by decide)

theorem lazyLoop_decomposition (l : List Frame) :
    ∀ out : TraceOutput,
      out.entries.length + (syncEntries l).length ≤ out.capacity →
      ((collectFramesLazyLoop l out).1.entries
        = out.entries ++ syncEntries l
          ++ (match firstHit l with
              | none => []
              | some c =>
                chainEntries c
                  (out.capacity - out.entries.length
                    - (syncEntries l).length)))
      ∧ (collectFramesLazyLoop l out).2 = (firstHit l).isSome := by
  induction l with
  | nil =>
    intro out hcap
    simp [collectFramesLazyLoop, syncEntries, firstHit]
  | cons f rest ih =>
    intro out hcap
    by_cases htramp : f.isTrampoline = true
    · have hse : syncEntries (f :: rest) = syncEntries rest := by
        simp [syncEntries, htramp]
      have hfh : firstHit (f :: rest) = firstHit rest := by
        simp [firstHit, htramp]
      have hloop : collectFramesLazyLoop (f :: rest) out
          = collectFramesLazyLoop rest out := by
        simp [collectFramesLazyLoop, htramp]
      rw [hse] at hcap
      rw [hloop, hse, hfh]
      exact ih out hcap
    · cases hc : f.closure with
      | some c =>
        by_cases hrun : IsRunningAsync c = true
        · have hse : syncEntries (f :: rest) = [] := by
            simp [syncEntries, htramp, hc, hrun]
          have hfh : firstHit (f :: rest) = some c := by
            simp [firstHit, htramp, hc, hrun]
          have hloop : collectFramesLazyLoop (f :: rest) out
              = (UnwindAwaiterChain c out, true) := by
            simp [collectFramesLazyLoop, htramp, hc, hrun]
          have hent := unwind_entries_eq
            (out.capacity - out.entries.length) c out rfl
          rw [hloop, hse, hfh]
          refine ⟨?_, rfl⟩
          simpa using hent
        · have hrun' : IsRunningAsync c = false := by simpa using hrun
          have hse : syncEntries (f :: rest)
              = frameEntry f :: syncEntries rest := by
            simp [syncEntries, htramp, hc, hrun']
          have hfh : firstHit (f :: rest) = firstHit rest := by
            simp [firstHit, htramp, hc, hrun']
          have hloop : collectFramesLazyLoop (f :: rest) out
              = collectFramesLazyLoop rest (out.append (frameEntry f)) := by
            simp [collectFramesLazyLoop, htramp, hc, hrun']
          rw [hse] at hcap
          have hnotfull : ¬ out.isFull = true := by
            simp only [TraceOutput.isFull, decide_eq_true_eq]
            simp only [List.length_cons] at hcap
            omega
          have happ := TraceOutput.append_entries_of_not_full out
            (frameEntry f) hnotfull
          have hcapp := TraceOutput.append_capacity out (frameEntry f)
          have hcap2 : (out.append (frameEntry f)).entries.length
              + (syncEntries rest).length
              ≤ (out.append (frameEntry f)).capacity := by
            rw [happ, hcapp]
            simp only [List.length_append, List.length_singleton]
            simp only [List.length_cons] at hcap
            omega
          have hih := ih (out.append (frameEntry f)) hcap2
          rw [hloop, hse, hfh]
          refine ⟨?_, hih.2⟩
          rw [hih.1, happ, hcapp]
          cases hfhr : firstHit rest with
          | none => simp
          | some c2 =>
            have hfuel : out.capacity - (out.entries.length + 1)
                - (syncEntries rest).length
                = out.capacity - out.entries.length
                  - ((syncEntries rest).length + 1) := by
              omega
            simp [hfuel]
      | none =>
        have hse : syncEntries (f :: rest)
            = frameEntry f :: syncEntries rest := by
          simp [syncEntries, htramp, hc]
        have hfh : firstHit (f :: rest) = firstHit rest := by
          simp [firstHit, htramp, hc]
        have hloop : collectFramesLazyLoop (f :: rest) out
            = collectFramesLazyLoop rest (out.append (frameEntry f)) := by
          simp [collectFramesLazyLoop, htramp, hc]
        rw [hse] at hcap
        have hnotfull : ¬ out.isFull = true := by
          simp only [TraceOutput.isFull, decide_eq_true_eq]
          simp only [List.length_cons] at hcap
          omega
        have happ := TraceOutput.append_entries_of_not_full out
          (frameEntry f) hnotfull
        have hcapp := TraceOutput.append_capacity out (frameEntry f)
        have hcap2 : (out.append (frameEntry f)).entries.length
            + (syncEntries rest).length
            ≤ (out.append (frameEntry f)).capacity := by
          rw [happ, hcapp]
          simp only [List.length_append, List.length_singleton]
          simp only [List.length_cons] at hcap
          omega
        have hih := ih (out.append (frameEntry f)) hcap2
        rw [hloop, hse, hfh]
        refine ⟨?_, hih.2⟩
        rw [hih.1, happ, hcapp]
        cases hfhr : firstHit rest with
        | none => simp
        | some c2 =>
          have hfuel : out.capacity - (out.entries.length + 1)
              - (syncEntries rest).length
              = out.capacity - out.entries.length
                - ((syncEntries rest).length + 1) := by
            omega
          simp [hfuel]

/-- Claim C5: the output sequence produced by `CollectFramesLazy` is strictly
ordered: the innermost physical frame's entry comes first, followed by the
remaining physical frames top-down, and then (if an async hit occurs) the
heap-graph chain entries from the most recent continuation to the oldest; no
entry appears out of this order. -/
theorem collectFramesLazy_ordering
    (stack : List Frame) (skipFrames : Nat) (out : TraceOutput)
    (hcap : out.entries.length
      + (syncEntries (stack.drop skipFrames)).length ≤ out.capacity) :
    (CollectFramesLazy stack skipFrames out).1.entries
      = out.entries ++ syncEntries (stack.drop skipFrames)
        ++ (match firstHit (stack.drop skipFrames) with
            | none => []
            | some c =>
              chainEntries c
                (out.capacity - out.entries.length
                  - (syncEntries (stack.drop skipFrames)).length)) := by
  rw [CollectFramesLazy]
  exact (lazyLoop_decomposition (stack.drop skipFrames) out hcap).1

/-! Concrete fixtures: two ordinary synchronous frames and an async-leaf
frame whose continuation closure is `closureAW`. -/

def syncFrameW : Frame := ⟨200, 5, false, none, none⟩

def syncFrame2W : Frame := ⟨201, 6, false, none, none⟩

def hitFrameW : Frame := ⟨100, 99, false, none, some closureAW⟩

/-- Witness for claim C5 on a concrete stack of one synchronous frame
followed by an async leaf whose chain has three closures. -/
theorem collectFramesLazy_ordering_witness :
    (CollectFramesLazy [syncFrameW, hitFrameW] 0 ⟨10, []⟩).1.entries
      = [] ++ syncEntries ([syncFrameW, hitFrameW].drop 0)
        ++ (match firstHit ([syncFrameW, hitFrameW].drop 0) with
            | none => []
            | some c =>
              chainEntries c
                (10 - List.length ([] : List (Nat × Nat))
                  - (syncEntries ([syncFrameW, hitFrameW].drop 0)).length)) :=
  collectFramesLazy_ordering [syncFrameW, hitFrameW] 0 ⟨10, []⟩ (by decide)

theorem sync_only_syncEntries :
    ∀ l : List Frame,
      (∀ f ∈ l, f.isTrampoline = false ∧ frameIsHit f = false) →
      syncEntries l = l.map frameEntry ∧ firstHit l = none := by
  intro l
  induction l with
  | nil => intro h; exact ⟨rfl, rfl⟩
  | cons f rest ih =>
    intro h
    obtain ⟨htramp, hhit⟩ := h f (List.mem_cons_self f rest)
    have hrest := ih (fun g hg => h g (List.mem_cons_of_mem f hg))
    cases hc : f.closure with
    | none =>
      constructor
      · simp [syncEntries, htramp, hc, hrest.1]
      · simp [firstHit, htramp, hc, hrest.2]
    | some c =>
      have hrun : IsRunningAsync c = false := by
        simpa [frameIsHit, hc] using hhit
      constructor
      · simp [syncEntries, htramp, hc, hrun, hrest.1]
      · simp [firstHit, htramp, hc, hrun, hrest.2]

/-- Claim C2: for every stack containing only ordinary synchronous frames (no
suspended async/async-generator frame, no trampoline frame after the skipped
prefix), `CollectFramesLazy` reports has_async = false and the (code, pc)
sequence it produces is exactly equal to the sequence produced by
`CollectFrames` for the same skip_frames count (collecting all remaining
frames). -/
theorem collectFramesLazy_sync_refines
    (stack : List Frame) (skipFrames : Nat) (out : TraceOutput)
    (hsync : ∀ f ∈ stack.drop skipFrames,
        f.isTrampoline = false ∧ frameIsHit f = false)
    (hempty : out.entries = [])
    (hcap : (stack.drop skipFrames).length ≤ out.capacity) :
    (CollectFramesLazy stack skipFrames out).2 = false ∧
    (CollectFramesLazy stack skipFrames out).1.entries
      = CollectFrames stack ((stack.drop skipFrames).length) skipFrames := by
  obtain ⟨hse, hfh⟩ := sync_only_syncEntries (stack.drop skipFrames) hsync
  have hcap2 : out.entries.length
      + (syncEntries (stack.drop skipFrames)).length ≤ out.capacity := by
    rw [hempty, hse]
    simpa using hcap
  obtain ⟨hent, hflag⟩ := lazyLoop_decomposition (stack.drop skipFrames) out hcap2
  constructor
  · rw [CollectFramesLazy]
    rw [hflag, hfh]
    rfl
  · rw [CollectFramesLazy]
    rw [hent, hfh, hse, hempty]
    rw [CollectFrames, collectFramesList_eq_take, List.take_length]
    simp

/-- Witness for claim C2 on a concrete two-frame synchronous stack. -/
theorem collectFramesLazy_sync_refines_witness :
    (CollectFramesLazy [syncFrameW, syncFrame2W] 0 ⟨10, []⟩).2 = false ∧
    (CollectFramesLazy [syncFrameW, syncFrame2W] 0 ⟨10, []⟩).1.entries
      = CollectFrames [syncFrameW, syncFrame2W]
          (([syncFrameW, syncFrame2W].drop 0).length) 0 :=
  collectFramesLazy_sync_refines [syncFrameW, syncFrame2W] 0 ⟨10, []⟩
    (by decide) rfl (by decide)

/-- Modelled from the spec: the state visible to the subsystem at
trace-capture time — the physical execution stack being walked, the snapshot
of heap-resident continuation-graph objects (spec section 3 lifecycle), and
the caller-owned output buffers, the only component the subsystem may
write. -/
structure VMState where
  stack : List Frame
  heapRoots : List Obj
  out : TraceOutput

/-- `FindCaller` as a state transformer: it reads heap objects and writes
nothing. -/
def FindCallerST (s : VMState) (c : Obj) : VMState × Option Obj :=
  (s, FindCaller c)

/-- `GetCallerInFutureImpl` as a state transformer. -/
def GetCallerInFutureImplST (s : VMState) (fut : Obj) : VMState × Option Obj :=
  (s, GetCallerInFutureImpl fut)

/-- `GetCallerInFutureListener` as a state transformer. -/
def GetCallerInFutureListenerST (s : VMState) (l : Obj) :
    VMState × Option Obj :=
  (s, GetCallerInFutureListener l)

/-- `FindCallerInAsyncGenClosure` as a state transformer. -/
def FindCallerInAsyncGenClosureST (s : VMState) (ctx : Obj) :
    VMState × Option Obj :=
  (s, FindCallerInAsyncGenClosure ctx)

/-- `GetAsyncFuture` as a state transformer. -/
def GetAsyncFutureST (s : VMState) (c : Obj) : VMState × Option Obj :=
  (s, GetAsyncFuture c)

/-- `GetFutureFutureListener` as a state transformer. -/
def GetFutureFutureListenerST (s : VMState) (fut : Obj) :
    VMState × Option Obj :=
  (s, GetFutureFutureListener fut)

/-- `GetFutureListenerResult` as a state transformer. -/
def GetFutureListenerResultST (s : VMState) (l : Obj) : VMState × Option Obj :=
  (s, GetFutureListenerResult l)

/-- `GetFutureListenerCallback` as a state transformer. -/
def GetFutureListenerCallbackST (s : VMState) (l : Obj) :
    VMState × Option Obj :=
  (s, GetFutureListenerCallback l)

/-- `GetFutureListenerState` as a state transformer. -/
def GetFutureListenerStateST (s : VMState) (l : Obj) : VMState × Option Nat :=
  (s, GetFutureListenerState l)

/-- `HasCatchError` as a state transformer. -/
def HasCatchErrorST (s : VMState) (l : Obj) : VMState × Bool :=
  (s, HasCatchError l)

/-- `UnwrapAsyncThen` as a state transformer. -/
def UnwrapAsyncThenST (s : VMState) (c : Obj) : VMState × Option Obj :=
  (s, UnwrapAsyncThen c)

/-- `IsRunningAsync` as a state transformer. -/
def IsRunningAsyncST (s : VMState) (c : Obj) : VMState × Bool :=
  (s, IsRunningAsync c)

/-- `CountFrames` as a state transformer: it walks the stack and writes
nothing. -/
def CountFramesST (s : VMState) (skipFrames : Nat) (af : Option Func) :
    VMState × (Nat × Option Bool) :=
  (s, CountFrames s.stack skipFrames af)

/-- `CollectFrames` as a state transformer: it walks the stack and writes
only the caller-owned output buffers. -/
def CollectFramesST (s : VMState) (count skipFrames : Nat) : VMState × Nat :=
  let es := CollectFrames s.stack count skipFrames
  ({ s with out := { s.out with entries := s.out.entries ++ es } }, es.length)

/-- `UnwindAwaiterChain` as a state transformer: it reads heap objects and
writes only the caller-owned output buffers. -/
def UnwindAwaiterChainST (s : VMState) (c : Obj) : VMState :=
  { s with out := UnwindAwaiterChain c s.out }

/-- `CollectFramesLazy` as a state transformer: it walks the stack, reads
heap objects and writes only the caller-owned output buffers. -/
def CollectFramesLazyST (s : VMState) (skipFrames : Nat) : VMState × Bool :=
  let r := CollectFramesLazy s.stack skipFrames s.out
  ({ s with out := r.1 }, r.2)

/-- Claim C9: every operation of the subsystem (`FindCaller` and all
`CallerClosureFinder` accessors, `CountFrames`, `CollectFrames`,
`CollectFramesLazy`, `UnwindAwaiterChain`) leaves every traversed heap object
and the physical stack unchanged: the heap state after any call equals the
heap state before it, with only the caller-owned output buffers written. -/
theorem subsystem_read_only
    (s : VMState) (c l fut ctx : Obj) (skipFrames count : Nat)
    (af : Option Func) :
    (FindCallerST s c).1 = s ∧
    (GetCallerInFutureImplST s fut).1 = s ∧
    (GetCallerInFutureListenerST s l).1 = s ∧
    (FindCallerInAsyncGenClosureST s ctx).1 = s ∧
    (GetAsyncFutureST s c).1 = s ∧
    (GetFutureFutureListenerST s fut).1 = s ∧
    (GetFutureListenerResultST s l).1 = s ∧
    (GetFutureListenerCallbackST s l).1 = s ∧
    (GetFutureListenerStateST s l).1 = s ∧
    (HasCatchErrorST s l).1 = s ∧
    (UnwrapAsyncThenST s c).1 = s ∧
    (IsRunningAsyncST s c).1 = s ∧
    (CountFramesST s skipFrames af).1 = s ∧
    (CollectFramesST s count skipFrames).1.stack = s.stack ∧
    (CollectFramesST s count skipFrames).1.heapRoots = s.heapRoots ∧
    (UnwindAwaiterChainST s c).stack = s.stack ∧
    (UnwindAwaiterChainST s c).heapRoots = s.heapRoots ∧
    (CollectFramesLazyST s skipFrames).1.stack = s.stack ∧
    (CollectFramesLazyST s skipFrames).1.heapRoots = s.heapRoots :=
  ⟨rfl, rfl, rfl, rfl, rfl, rfl, rfl, rfl, rfl, rfl, rfl, rfl, rfl, rfl, rfl,
   rfl, rfl, rfl, rfl⟩

end StackTraceVM
